import Mathlib

/-
Verification of the seller-apis stock/price synchronisation scripts
(src/seller.py for the Ozon marketplace, src/market.py for Yandex.Market).

The pure reconciliation core is embedded shallowly:
  * supplier feed rows become `SupplierRecord` (fields `kod`, `kolichestvo`,
    `tsena` transliterate the Russian column names "Код", "Количество",
    "Цена");
  * Python's `int(...)` applied to a string becomes the `Option Int` valued
    `pyInt` (a `ValueError` is `none`);
  * list mutation (`offer_ids.remove`) is made explicit: the embedded
    `create_stocks` returns both the produced stock records and the final
    state of the caller's `offer_ids` list;
  * the paginated catalog readers are embedded with explicit fuel, the i-th
    HTTP response being supplied by an oracle `pages : Nat → _`;
  * the orchestration of seller.main is embedded with oracles for every
    network call; exceptions are the explicit `PyExc` type and the
    try/except block becomes a match producing the printed message.
-/

namespace SellerApis

/-- Digit-string validity for Python `int(str)`: nonempty, only ASCII digits
and underscores, with underscores neither leading, trailing, nor doubled
(PEP 515 grouping).  Non-ASCII digits are not modelled; no input in this
repository uses them. -/
def pyIntDigitsOk (ds : List Char) : Bool :=
  (!ds.isEmpty)
    && ds.all (fun c => c.isDigit || c = '_')
    && ds.head? ≠ some '_'
    && ds.getLast? ≠ some '_'
    && (ds.zip ds.tail).all (fun p => !(p.1 = '_' && p.2 = '_'))

/-- Numeric value of a valid Python digit string, skipping the underscores. -/
def digitsToNat (ds : List Char) : Nat :=
  ds.foldl (fun a c => if c = '_' then a else 10 * a + (c.toNat - 48)) 0

/-- Model of Python `int(s)` for a string `s`: strip surrounding whitespace,
allow one optional sign, then a digit string; any other input raises
`ValueError`, modelled as `none`. -/
def pyInt (s : String) : Option Int :=
  let t := ((s.toList.dropWhile Char.isWhitespace).reverse.dropWhile
    Char.isWhitespace).reverse
  match t with
  | '-' :: ds => if pyIntDigitsOk ds then some (-(digitsToNat ds : Int)) else none
  | '+' :: ds => if pyIntDigitsOk ds then some (digitsToNat ds : Int) else none
  | ds => if pyIntDigitsOk ds then some (digitsToNat ds : Int) else none

/-- Model of Python `s.split(".")` on the character list of `s`: the list of
maximal chunks between the dots (always nonempty; `[""]` for the empty
string). -/
def splitDotChars : List Char → List (List Char)
  | [] => [[]]
  | c :: cs =>
    let r := splitDotChars cs
    if c = '.' then [] :: r
    else
      match r with
      | [] => [[c]]
      | h :: t => (c :: h) :: t

/-- One row of the supplier feed (src/seller.py `download_stock`): the fields
`kod`, `kolichestvo`, `tsena` are the columns "Код" (code), "Количество"
(quantity) and "Цена" (price), all read as strings. -/
structure SupplierRecord where
  kod : String
  kolichestvo : String
  tsena : String
deriving DecidableEq

/-- src/seller.py lines 226-251, `price_conversion`:
`re.sub("[^0-9]", "", price.split(".")[0])` — take the part before the first
period and delete every character that is not an ASCII digit. -/
def price_conversion (price : String) : String :=
  String.mk (((splitDotChars price.toList).headD []).filter Char.isDigit)

/-- Quantity coercion shared verbatim by src/seller.py lines 185-191 and
src/market.py lines 158-164: `">10"` maps to 100, `"1"` maps to 0, any other
string goes through Python `int(...)` (which may raise, i.e. `none`). -/
def convertCount (count : String) : Option Int :=
  if count = ">10" then some 100
  else if count = "1" then some 0
  else pyInt count

/-- One Ozon stock-update record, `{"offer_id": ..., "stock": ...}`
(src/seller.py line 192). -/
structure StockRecord where
  offer_id : String
  stock : Int
deriving DecidableEq

/-- First loop of src/seller.py `create_stocks` (lines 183-193): walk the
supplier records; on a code present in `offer_ids` convert the quantity,
emit a record and remove the code from `offer_ids` (Python `list.remove`
drops the first occurrence, embedded as `List.erase`).  Returns the matched
records together with the final state of the (mutated) `offer_ids` list;
`none` models the `ValueError` of `int(...)` on an unparseable quantity. -/
def createStocksLoop : List SupplierRecord → List String →
    Option (List StockRecord × List String)
  | [], offer_ids => some ([], offer_ids)
  | w :: ws, offer_ids =>
    if w.kod ∈ offer_ids then
      match convertCount w.kolichestvo with
      | none => none
      | some stock =>
        match createStocksLoop ws (offer_ids.erase w.kod) with
        | none => none
        | some (matched, rem) => some (⟨w.kod, stock⟩ :: matched, rem)
    else createStocksLoop ws offer_ids

/-- src/seller.py lines 167-197, `create_stocks`: the matching loop followed
by a zero-stock record for every offer identifier left in the list.  The
second component of the result is the final state of the caller's
`offer_ids` list (the function mutates its argument in Python). -/
def create_stocks (watch_remnants : List SupplierRecord)
    (offer_ids : List String) : Option (List StockRecord × List String) :=
  match createStocksLoop watch_remnants offer_ids with
  | none => none
  | some (matched, rem) =>
    some (matched ++ rem.map (fun oid => ⟨oid, 0⟩), rem)

/-- One Ozon price-update record (src/seller.py lines 215-221). -/
structure PriceRecord where
  auto_action_enabled : String
  currency_code : String
  offer_id : String
  old_price : String
  price : String
deriving DecidableEq

/-- src/seller.py lines 200-223, `create_prices`: one price record per
supplier row whose code occurs in `offer_ids` (the list is only read, never
mutated here). -/
def create_prices : List SupplierRecord → List String → List PriceRecord
  | [], _ => []
  | w :: ws, offer_ids =>
    if w.kod ∈ offer_ids then
      { auto_action_enabled := "UNKNOWN", currency_code := "RUB",
        offer_id := w.kod, old_price := "0",
        price := price_conversion w.tsena } :: create_prices ws offer_ids
    else create_prices ws offer_ids

/-- src/seller.py lines 254-270, `divide`: the generator
`for i in range(0, len(lst), n): yield lst[i : i + n]`, embedded by
enumerating the slice starts `0, n, 2n, ...` (`List.range'` with stride `n`;
`(lst.length + n - 1) / n` is the length of `range(0, len(lst), n)`).
Python raises `ValueError` on stride 0; the claims only concern `n ≥ 1` and
the embedding returns junk `[]` there. -/
def divide {α : Type} (lst : List α) (n : Nat) : List (List α) :=
  if n = 0 then []
  else (List.range' 0 ((lst.length + n - 1) / n) n).map
    (fun i => (lst.drop i).take n)

/-- One entry of the `items` array of a Yandex.Market stock-update record
(src/market.py lines 170-174). -/
structure MarketStockItem where
  count : Int
  type : String
  updatedAt : String
deriving DecidableEq

/-- One Yandex.Market stock-update record (src/market.py lines 166-176). -/
structure MarketStock where
  sku : String
  warehouseId : String
  items : List MarketStockItem
deriving DecidableEq

/-- First loop of src/market.py `create_stocks` (lines 156-178): identical
control flow to the Ozon version, but each record carries the warehouse
identifier and a single-item `items` array stamped with the date string
computed at entry. -/
def marketStocksLoop (warehouse_id date : String) :
    List SupplierRecord → List String →
    Option (List MarketStock × List String)
  | [], offer_ids => some ([], offer_ids)
  | w :: ws, offer_ids =>
    if w.kod ∈ offer_ids then
      match convertCount w.kolichestvo with
      | none => none
      | some stock =>
        match marketStocksLoop warehouse_id date ws (offer_ids.erase w.kod) with
        | none => none
        | some (matched, rem) =>
          some ({ sku := w.kod, warehouseId := warehouse_id,
                  items := [{ count := stock, type := "FIT",
                              updatedAt := date }] } :: matched, rem)
    else marketStocksLoop warehouse_id date ws offer_ids

/-- src/market.py lines 138-194, `create_stocks`: matching loop plus a
zero-count record for every identifier left in the list; as in the Ozon
version the final state of the mutated `offer_ids` list is returned. -/
def market_create_stocks (watch_remnants : List SupplierRecord)
    (offer_ids : List String) (warehouse_id date : String) :
    Option (List MarketStock × List String) :=
  match marketStocksLoop warehouse_id date watch_remnants offer_ids with
  | none => none
  | some (matched, rem) =>
    some (matched ++ rem.map (fun oid =>
      { sku := oid, warehouseId := warehouse_id,
        items := [{ count := 0, type := "FIT", updatedAt := date }] }), rem)

/-- Packaging of an Ozon stock record as the corresponding Yandex.Market
record; used to relate the two structurally identical `create_stocks`
loops. -/
def mkMarketStock (warehouse_id date : String) (s : StockRecord) : MarketStock :=
  { sku := s.offer_id, warehouseId := warehouse_id,
    items := [{ count := s.stock, type := "FIT", updatedAt := date }] }

/-- Price body of a Yandex.Market price-update record
(src/market.py lines 215-220). -/
structure MarketPriceBody where
  value : Int
  currencyId : String
deriving DecidableEq

/-- One Yandex.Market price-update record (src/market.py lines 212-223). -/
structure MarketPrice where
  id : String
  price : MarketPriceBody
deriving DecidableEq

/-- src/market.py lines 197-225, `create_prices`: like the Ozon version but
the converted price goes through `int(...)`, so an empty conversion result
raises (`none`). -/
def market_create_prices : List SupplierRecord → List String →
    Option (List MarketPrice)
  | [], _ => some []
  | w :: ws, offer_ids =>
    if w.kod ∈ offer_ids then
      match pyInt (price_conversion w.tsena) with
      | none => none
      | some v =>
        match market_create_prices ws offer_ids with
        | none => none
        | some qs => some ({ id := w.kod, price := ⟨v, "RUR"⟩ } :: qs)
    else market_create_prices ws offer_ids

/-- One item of an Ozon product-list response; only the `offer_id` field is
read by the script (src/seller.py line 75). -/
structure OzonItem where
  offer_id : String
deriving DecidableEq

/-- One Ozon `product/list` response page: `items`, `total`, `last_id`
(src/seller.py lines 67-70). -/
structure OzonPage where
  items : List OzonItem
  total : Nat
  last_id : String
deriving DecidableEq

/-- The `while True` loop of src/seller.py `get_offer_ids` (lines 64-72),
with the i-th response supplied by the oracle `pages` and explicit fuel:
extend the accumulator with the page's items and stop as soon as the page's
`total` equals the number of items accumulated so far. -/
def ozonLoop (pages : Nat → OzonPage) :
    Nat → Nat → List OzonItem → Option (List OzonItem)
  | 0, _, _ => none
  | fuel + 1, k, acc =>
    let p := pages k
    let acc2 := acc ++ p.items
    if p.total = acc2.length then some acc2
    else ozonLoop pages fuel (k + 1) acc2

/-- src/seller.py lines 48-76, `get_offer_ids`: run the pagination loop and
project every accumulated item to its `offer_id`. -/
def ozon_get_offer_ids (pages : Nat → OzonPage) (fuel : Nat) :
    Option (List String) :=
  (ozonLoop pages fuel 0 []).map (fun products => products.map OzonItem.offer_id)

/-- Concatenated items of the responses `0..k-1`. -/
def ozonAccumBelow (pages : Nat → OzonPage) (k : Nat) : List OzonItem :=
  ((List.range k).map (fun i => (pages i).items)).flatten

/-- Concatenated items of the responses `0..m` (pages in order). -/
def ozonAccum (pages : Nat → OzonPage) (m : Nat) : List OzonItem :=
  ozonAccumBelow pages (m + 1)

/-- Termination condition of the Ozon loop after consuming response `m`:
the reported `total` equals the number of items accumulated so far. -/
def ozonStops (pages : Nat → OzonPage) (m : Nat) : Prop :=
  (pages m).total = (ozonAccum pages m).length

/-- The `offer` object of a Yandex.Market mapping entry; only `shopSku` is
read (src/market.py line 134). -/
structure YandexOffer where
  shopSku : String
deriving DecidableEq

/-- One Yandex.Market `offerMappingEntries` element. -/
structure YandexEntry where
  offer : YandexOffer
deriving DecidableEq

/-- The `paging` object of a Yandex.Market listing response; an empty
`nextPageToken` (Python falsy) ends the pagination. -/
structure YandexPaging where
  nextPageToken : String
deriving DecidableEq

/-- One Yandex.Market listing response page (src/market.py lines 128-129). -/
structure YandexPage where
  offerMappingEntries : List YandexEntry
  paging : YandexPaging
deriving DecidableEq

/-- The `while True` loop of src/market.py `get_offer_ids` (lines 126-131):
extend the accumulator with the page's entries and stop as soon as the
returned `nextPageToken` is empty. -/
def yandexLoop (pages : Nat → YandexPage) :
    Nat → Nat → List YandexEntry → Option (List YandexEntry)
  | 0, _, _ => none
  | fuel + 1, k, acc =>
    let p := pages k
    let acc2 := acc ++ p.offerMappingEntries
    if p.paging.nextPageToken = "" then some acc2
    else yandexLoop pages fuel (k + 1) acc2

/-- src/market.py lines 109-135, `get_offer_ids`: run the pagination loop
and project every accumulated entry to `offer.shopSku`. -/
def market_get_offer_ids (pages : Nat → YandexPage) (fuel : Nat) :
    Option (List String) :=
  (yandexLoop pages fuel 0 []).map
    (fun products => products.map (fun e => e.offer.shopSku))

/-- Concatenated entries of the responses `0..k-1`. -/
def yandexAccumBelow (pages : Nat → YandexPage) (k : Nat) : List YandexEntry :=
  ((List.range k).map (fun i => (pages i).offerMappingEntries)).flatten

/-- Concatenated entries of the responses `0..m` (pages in order). -/
def yandexAccum (pages : Nat → YandexPage) (m : Nat) : List YandexEntry :=
  yandexAccumBelow pages (m + 1)

/-- Termination condition of the Yandex loop after consuming response `m`:
the page's `nextPageToken` is empty. -/
def yandexStops (pages : Nat → YandexPage) (m : Nat) : Prop :=
  (pages m).paging.nextPageToken = ""

/-- Exception classes distinguished by the `except` clauses of seller.main
(src/seller.py lines 337-342): `requests.exceptions.ReadTimeout`,
`requests.exceptions.ConnectionError`, and everything else. -/
inductive PyExc where
  | readTimeout : PyExc
  | connectionError : String → PyExc
  | otherError : String → PyExc
deriving DecidableEq

/-- The message printed by the matching `except` clause of seller.main
(Python `print(a, b)` joins its arguments with one space). -/
def exceptMessage : PyExc → String
  | .readTimeout => "Превышено время ожидания..."
  | .connectionError m => m ++ " Ошибка соединения"
  | .otherError m => m ++ " ERROR_2"

/-- Observable network events of one seller.main run: the catalog fetch, the
supplier-feed download, and the i-th stock / price chunk upload. -/
inductive Ev where
  | getIds : Ev
  | getFeed : Ev
  | stockChunk : Nat → Ev
  | priceChunk : Nat → Ev
deriving DecidableEq

/-- Sequential chunk-upload loop (`for some_stock in list(divide(...)):`,
src/seller.py lines 331-332 and 335-336): attempt calls `i, i+1, ...` for
`cnt` chunks, where the oracle `send` gives each call's outcome; stop at the
first failing call.  Returns the indices attempted (in order) and the
propagated exception, if any. -/
def runCallsFrom (send : Nat → Except PyExc Unit) :
    Nat → Nat → List Nat × Option PyExc
  | _, 0 => ([], none)
  | i, cnt + 1 =>
    match send i with
    | .error e => ([i], some e)
    | .ok _ =>
      let r := runCallsFrom send (i + 1) cnt
      (i :: r.1, r.2)

/-- Data flow of the try-block of src/seller.py `main` (lines 327-336)
restricted to the list-building steps: `create_stocks` is applied to the
fetched `offer_ids` list and `create_prices` is then applied to THAT SAME
list, which `create_stocks` has mutated (matched identifiers removed). -/
def main_stock_price (watch_remnants : List SupplierRecord)
    (offer_ids : List String) :
    Option (List StockRecord × List PriceRecord) :=
  match create_stocks watch_remnants offer_ids with
  | none => none
  | some (stocks, rem) => some (stocks, create_prices watch_remnants rem)

/-- Body of the `try:` block of src/seller.py `main` (lines 326-336), with
oracles for every network interaction: the catalog fetch, the feed download
and the outcome of each chunk-upload call.  Returns the event trace and the
exception that escaped the block, if any.  A `ValueError` raised by
`int(...)` inside `create_stocks` surfaces as a generic exception. -/
def sellerMainRun (fetchIds : Except PyExc (List String))
    (fetchFeed : Except PyExc (List SupplierRecord))
    (sendStock sendPrice : Nat → Except PyExc Unit) :
    List Ev × Option PyExc :=
  match fetchIds with
  | .error e => ([.getIds], some e)
  | .ok oids =>
    match fetchFeed with
    | .error e => ([.getIds, .getFeed], some e)
    | .ok feed =>
      match create_stocks feed oids with
      | none => ([.getIds, .getFeed],
          some (.otherError "invalid literal for int() with base 10"))
      | some (stocks, rem) =>
        let r := runCallsFrom sendStock 0 (divide stocks 100).length
        let evs := [Ev.getIds, Ev.getFeed] ++ r.1.map Ev.stockChunk
        match r.2 with
        | some e => (evs, some e)
        | none =>
          let prices := create_prices feed rem
          let r2 := runCallsFrom sendPrice 0 (divide prices 900).length
          (evs ++ r2.1.map Ev.priceChunk, r2.2)

/-- Outcome of a full seller.main run: the trace of attempted network events
and the message printed by an `except` clause (`none` when the try-block
finished without an exception). -/
structure MainOutcome where
  events : List Ev
  printed : Option String
deriving DecidableEq

/-- src/seller.py lines 322-342, `main`: run the try-block and turn the
escaped exception, if any, into the printed operator message; no retries,
no further classification. -/
def sellerMain (fetchIds : Except PyExc (List String))
    (fetchFeed : Except PyExc (List SupplierRecord))
    (sendStock sendPrice : Nat → Except PyExc Unit) : MainOutcome :=
  let r := sellerMainRun fetchIds fetchFeed sendStock sendPrice
  ⟨r.1, r.2.map exceptMessage⟩

theorem splitDotChars_ne_nil : ∀ cs : List Char, splitDotChars cs ≠ []
  | [] => by simp [splitDotChars]
  | c :: cs => by
    simp only [splitDotChars]
    cases h : splitDotChars cs with
    | nil => exact absurd h (splitDotChars_ne_nil cs)
    | cons x t =>
      by_cases hc : c = '.' <;> simp [hc]

theorem splitDotChars_headD :
    ∀ cs : List Char,
      (splitDotChars cs).headD [] = cs.takeWhile (fun c => c != '.')
  | [] => by simp [splitDotChars]
  | c :: cs => by
    simp only [splitDotChars]
    by_cases hc : c = '.'
    · simp [hc, List.takeWhile_cons]
    · cases h : splitDotChars cs with
      | nil => exact absurd h (splitDotChars_ne_nil cs)
      | cons x t =>
        have ih := splitDotChars_headD cs
        rw [h] at ih
        simp only [List.headD_cons] at ih
        simp [hc, List.takeWhile_cons, ih]

/-- C4: price_conversion keeps exactly the ASCII digits of the part of the
price string before the first period; on "5'990.00 руб." it yields "5990"
and on "Цена: отсутствует" it yields the empty string. -/
theorem C4_price_conversion :
    (∀ p : String, price_conversion p =
      String.mk ((p.toList.takeWhile (fun c => c != '.')).filter Char.isDigit))
    ∧ price_conversion "5\x27990.00 руб." = "5990"
    ∧ price_conversion "Цена: отсутствует" = "" := by
  refine ⟨fun p => ?_, by decide, by decide⟩
  rw [price_conversion, splitDotChars_headD]

/-- C3: quantity coercion in both create_stocks loops: ">10" becomes 100,
"1" becomes 0, every other string is passed to Python int (so "7" becomes 7
and an unparseable string raises, i.e. yields none), and in create_stocks a
matched record receives exactly this converted value, the error
propagating. -/
theorem C3_quantity_coercion :
    convertCount ">10" = some 100
    ∧ convertCount "1" = some 0
    ∧ convertCount "7" = some 7
    ∧ (∀ s : String, s ≠ ">10" → s ≠ "1" → convertCount s = pyInt s)
    ∧ (∀ s : String, s ≠ ">10" → pyInt s = none → convertCount s = none)
    ∧ (∀ (w : SupplierRecord) (oids : List String), w.kod ∈ oids →
        create_stocks [w] oids =
          (convertCount w.kolichestvo).map (fun st =>
            (⟨w.kod, st⟩ :: (oids.erase w.kod).map (fun oid => ⟨oid, 0⟩),
             oids.erase w.kod))) := by
  have h4 : ∀ s : String, s ≠ ">10" → s ≠ "1" → convertCount s = pyInt s := by
    intro s h1 h2
    simp [convertCount, h1, h2]
  refine ⟨by decide, by decide, by decide, h4, ?_, ?_⟩
  · intro s h1 hnone
    by_cases h2 : s = "1"
    · subst h2; exact absurd hnone (by decide)
    · rw [h4 s h1 h2, hnone]
  · intro w oids hmem
    cases hc : convertCount w.kolichestvo with
    | none => simp [create_stocks, createStocksLoop, hmem, hc]
    | some st => simp [create_stocks, createStocksLoop, hmem, hc]

/-- C3 witness: the unparseable quantity string "abc" signals an error. -/
theorem C3_witness : convertCount "abc" = none :=
  C3_quantity_coercion.2.2.2.2.1 "abc" (by decide) (by decide)

theorem createStocksLoop_perm (ws : List SupplierRecord) :
    ∀ (oids : List String) (matched : List StockRecord) (rem : List String),
      createStocksLoop ws oids = some (matched, rem) →
      oids.Perm (matched.map StockRecord.offer_id ++ rem) := by
  induction ws with
  | nil =>
    intro oids matched rem h
    simp [createStocksLoop] at h
    obtain ⟨rfl, rfl⟩ := h
    simp
  | cons w ws ih =>
    intro oids matched rem h
    by_cases hmem : w.kod ∈ oids
    · rw [createStocksLoop, if_pos hmem] at h
      cases hc : convertCount w.kolichestvo with
      | none => rw [hc] at h; exact Option.noConfusion h
      | some st =>
        rw [hc] at h
        cases hr : createStocksLoop ws (oids.erase w.kod) with
        | none => rw [hr] at h; exact Option.noConfusion h
        | some p =>
          obtain ⟨m2, rem2⟩ := p
          rw [hr] at h
          simp only [Option.some.injEq, Prod.mk.injEq] at h
          obtain ⟨rfl, rfl⟩ := h
          have hperm := (ih (oids.erase w.kod) m2 rem2 hr).cons w.kod
          exact (List.perm_cons_erase hmem).trans hperm
    · rw [createStocksLoop, if_neg hmem] at h
      exact ih oids matched rem h

theorem createStocksLoop_rem (ws : List SupplierRecord) :
    ∀ (oids : List String) (matched : List StockRecord) (rem : List String),
      oids.Nodup →
      createStocksLoop ws oids = some (matched, rem) →
      rem = oids.filter (fun oid => ws.all (fun w => w.kod != oid)) := by
  induction ws with
  | nil =>
    intro oids matched rem _ h
    simp [createStocksLoop] at h
    obtain ⟨rfl, rfl⟩ := h
    simp
  | cons w ws ih =>
    intro oids matched rem hnd h
    by_cases hmem : w.kod ∈ oids
    · rw [createStocksLoop, if_pos hmem] at h
      cases hc : convertCount w.kolichestvo with
      | none => rw [hc] at h; exact Option.noConfusion h
      | some st =>
        rw [hc] at h
        cases hr : createStocksLoop ws (oids.erase w.kod) with
        | none => rw [hr] at h; exact Option.noConfusion h
        | some p =>
          obtain ⟨m2, rem2⟩ := p
          rw [hr] at h
          simp only [Option.some.injEq, Prod.mk.injEq] at h
          obtain ⟨rfl, rfl⟩ := h
          rw [ih (oids.erase w.kod) m2 rem2 (hnd.erase w.kod) hr,
            List.Nodup.erase_eq_filter hnd, List.filter_filter]
          apply List.filter_congr
          intro x hx
          by_cases hxw : x = w.kod
          · subst hxw; simp
          · have h2 : w.kod ≠ x := fun he => hxw he.symm
            have e1 : (x != w.kod) = true := by simp [hxw]
            have e2 : (w.kod != x) = true := by simp [h2]
            simp [List.all_cons, e1, e2]
    · rw [createStocksLoop, if_neg hmem] at h
      rw [ih oids matched rem hnd h]
      apply List.filter_congr
      intro x hx
      have h2 : w.kod ≠ x := fun he => hmem (he ▸ hx)
      simp [List.all_cons, h2]

theorem marketStocksLoop_eq (warehouse_id date : String)
    (ws : List SupplierRecord) :
    ∀ oids : List String,
      marketStocksLoop warehouse_id date ws oids =
        (createStocksLoop ws oids).map
          (fun p => (p.1.map (mkMarketStock warehouse_id date), p.2)) := by
  induction ws with
  | nil => intro oids; simp [marketStocksLoop, createStocksLoop]
  | cons w ws ih =>
    intro oids
    by_cases hmem : w.kod ∈ oids
    · cases hc : convertCount w.kolichestvo with
      | none => simp [marketStocksLoop, createStocksLoop, hmem, hc]
      | some st =>
        cases hr : createStocksLoop ws (oids.erase w.kod) with
        | none => simp [marketStocksLoop, createStocksLoop, hmem, hc, ih, hr]
        | some p =>
          simp [marketStocksLoop, createStocksLoop, hmem, hc, ih, hr,
            mkMarketStock]
    · simp [marketStocksLoop, createStocksLoop, hmem, ih]

theorem market_create_stocks_eq (feed : List SupplierRecord)
    (oids : List String) (warehouse_id date : String) :
    market_create_stocks feed oids warehouse_id date =
      (create_stocks feed oids).map
        (fun p => (p.1.map (mkMarketStock warehouse_id date), p.2)) := by
  rw [market_create_stocks, create_stocks, marketStocksLoop_eq]
  cases hr : createStocksLoop feed oids with
  | none => simp
  | some p =>
    obtain ⟨m, rem⟩ := p
    simp [mkMarketStock, List.map_map, Function.comp]

theorem market_create_prices_ids (ws : List SupplierRecord) :
    ∀ (oids : List String) (qs : List MarketPrice),
      market_create_prices ws oids = some qs →
      qs.map MarketPrice.id =
        (create_prices ws oids).map PriceRecord.offer_id := by
  induction ws with
  | nil =>
    intro oids qs h
    simp [market_create_prices] at h
    subst h
    simp [create_prices]
  | cons w ws ih =>
    intro oids qs h
    by_cases hmem : w.kod ∈ oids
    · rw [market_create_prices, if_pos hmem] at h
      cases hv : pyInt (price_conversion w.tsena) with
      | none => rw [hv] at h; exact Option.noConfusion h
      | some v =>
        rw [hv] at h
        cases hr : market_create_prices ws oids with
        | none => rw [hr] at h; exact Option.noConfusion h
        | some qs2 =>
          rw [hr] at h
          simp only [Option.some.injEq] at h
          subst h
          simp [create_prices, hmem, ih oids qs2 hr]
    · rw [market_create_prices, if_neg hmem] at h
      simp [create_prices, hmem, ih oids qs h]

theorem mem_create_prices (ws : List SupplierRecord) :
    ∀ (oids : List String) (p : PriceRecord), p ∈ create_prices ws oids →
      p.offer_id ∈ oids ∧ ∃ w ∈ ws, w.kod = p.offer_id := by
  induction ws with
  | nil => intro oids p h; simp [create_prices] at h
  | cons w ws ih =>
    intro oids p h
    by_cases hmem : w.kod ∈ oids
    · rw [create_prices, if_pos hmem] at h
      rcases List.mem_cons.mp h with rfl | h2
      · exact ⟨hmem, w, List.mem_cons_self w ws, rfl⟩
      · obtain ⟨h3, w2, hw2, he⟩ := ih oids p h2
        exact ⟨h3, w2, List.mem_cons_of_mem w hw2, he⟩
    · rw [create_prices, if_neg hmem] at h
      obtain ⟨h3, w2, hw2, he⟩ := ih oids p h
      exact ⟨h3, w2, List.mem_cons_of_mem w hw2, he⟩

/-- C1: for a duplicate-free catalog, create_stocks (on both marketplaces)
zero-fills every identifier that no supplier record names, and the
identifiers of its records are a permutation of — hence exactly — the full
catalog, with no identifier in two records. -/
theorem C1_stock_delta_invariant (feed : List SupplierRecord)
    (oids : List String) (stocks : List StockRecord) (rem : List String)
    (hnd : oids.Nodup)
    (h : create_stocks feed oids = some (stocks, rem)) :
    (∀ oid ∈ oids, (∀ w ∈ feed, w.kod ≠ oid) →
      (⟨oid, 0⟩ : StockRecord) ∈ stocks)
    ∧ (stocks.map StockRecord.offer_id).Perm oids
    ∧ (stocks.map StockRecord.offer_id).Nodup
    ∧ ∀ warehouse_id date, ∃ mstocks,
        market_create_stocks feed oids warehouse_id date = some (mstocks, rem)
        ∧ mstocks.map MarketStock.sku = stocks.map StockRecord.offer_id
        ∧ ∀ oid ∈ oids, (∀ w ∈ feed, w.kod ≠ oid) →
            ({ sku := oid, warehouseId := warehouse_id,
               items := [{ count := 0, type := "FIT", updatedAt := date }] } :
              MarketStock) ∈ mstocks := by
  rw [create_stocks] at h
  cases hl : createStocksLoop feed oids with
  | none => rw [hl] at h; exact Option.noConfusion h
  | some p =>
    obtain ⟨matched, rem2⟩ := p
    rw [hl] at h
    simp only [Option.some.injEq, Prod.mk.injEq] at h
    obtain ⟨rfl, rfl⟩ := h
    have hperm := createStocksLoop_perm feed oids matched rem2 hl
    have hrem := createStocksLoop_rem feed oids matched rem2 hnd hl
    have hmapeq :
        (matched ++ rem2.map fun oid => (⟨oid, 0⟩ : StockRecord)).map
          StockRecord.offer_id = matched.map StockRecord.offer_id ++ rem2 := by
      simp [List.map_map, Function.comp_def]
    have hzero : ∀ oid ∈ oids, (∀ w ∈ feed, w.kod ≠ oid) →
        (⟨oid, 0⟩ : StockRecord) ∈
          matched ++ rem2.map fun oid => (⟨oid, 0⟩ : StockRecord) := by
      intro oid hoid hun
      have hm : oid ∈ rem2 := by
        rw [hrem]
        refine List.mem_filter.mpr ⟨hoid, ?_⟩
        simp only [List.all_eq_true]
        intro w hw
        simpa using hun w hw
      exact List.mem_append_right _ (List.mem_map.mpr ⟨oid, hm, rfl⟩)
    refine ⟨hzero, ?_, ?_, ?_⟩
    · rw [hmapeq]; exact hperm.symm
    · rw [hmapeq]; exact hperm.nodup_iff.mp hnd
    · intro warehouse_id date
      refine ⟨(matched ++ rem2.map fun oid => (⟨oid, 0⟩ : StockRecord)).map
        (mkMarketStock warehouse_id date), ?_, ?_, ?_⟩
      · rw [market_create_stocks_eq, create_stocks, hl]
        rfl
      · simp [mkMarketStock, List.map_map, Function.comp_def]
      · intro oid hoid hun
        exact List.mem_map.mpr ⟨⟨oid, 0⟩, hzero oid hoid hun, rfl⟩

/-- C1 witness: with catalog ["A","C"] and a feed naming only "A", the
identifier "C" gets a quantity-zero record. -/
theorem C1_witness :
    (⟨"C", 0⟩ : StockRecord) ∈ ([⟨"A", 5⟩, ⟨"C", 0⟩] : List StockRecord) :=
  (C1_stock_delta_invariant [⟨"A", "5", "9.00"⟩] ["A", "C"]
      [⟨"A", 5⟩, ⟨"C", 0⟩] ["C"] (by decide) (by decide)).1
    "C" (by decide) (by decide)

/-- C6: every identifier in the price-update list (either marketplace) also
occurs among the stock-update records built from the same inputs, and a
price record is only ever emitted for an identifier present both in the
supplier feed and in the marketplace catalog. -/
theorem C6_price_ids_subset (feed : List SupplierRecord) (oids : List String)
    (stocks : List StockRecord) (rem : List String)
    (h : create_stocks feed oids = some (stocks, rem)) :
    (∀ p ∈ create_prices feed oids,
        p.offer_id ∈ stocks.map StockRecord.offer_id
        ∧ p.offer_id ∈ oids ∧ ∃ w ∈ feed, w.kod = p.offer_id)
    ∧ ∀ qs, market_create_prices feed oids = some qs →
        ∀ q ∈ qs, q.id ∈ stocks.map StockRecord.offer_id
          ∧ q.id ∈ oids ∧ ∃ w ∈ feed, w.kod = q.id := by
  have hsets : ∀ x, x ∈ oids → x ∈ stocks.map StockRecord.offer_id := by
    rw [create_stocks] at h
    cases hl : createStocksLoop feed oids with
    | none => rw [hl] at h; exact Option.noConfusion h
    | some p =>
      obtain ⟨matched, rem2⟩ := p
      rw [hl] at h
      simp only [Option.some.injEq, Prod.mk.injEq] at h
      obtain ⟨rfl, rfl⟩ := h
      intro x hx
      have hperm := createStocksLoop_perm feed oids matched rem2 hl
      have : x ∈ matched.map StockRecord.offer_id ++ rem2 :=
        hperm.mem_iff.mp hx
      simpa [List.map_map, Function.comp_def] using this
  have hs : ∀ p ∈ create_prices feed oids,
      p.offer_id ∈ stocks.map StockRecord.offer_id
      ∧ p.offer_id ∈ oids ∧ ∃ w ∈ feed, w.kod = p.offer_id := by
    intro p hp
    obtain ⟨h1, h2⟩ := mem_create_prices feed oids p hp
    exact ⟨hsets p.offer_id h1, h1, h2⟩
  refine ⟨hs, ?_⟩
  intro qs hqs q hq
  have hid : q.id ∈ (create_prices feed oids).map PriceRecord.offer_id := by
    rw [← market_create_prices_ids feed oids qs hqs]
    exact List.mem_map.mpr ⟨q, hq, rfl⟩
  obtain ⟨p, hp, hpe⟩ := List.mem_map.mp hid
  obtain ⟨hh1, hh2, hh3⟩ := hs p hp
  exact ⟨hpe ▸ hh1, hpe ▸ hh2, hpe ▸ hh3⟩

/-- C6 witness: for feed [("A","5","9.00")] and catalog ["A","B"], the single
price record's identifier "A" occurs among the stock records' identifiers. -/
theorem C6_witness :
    "A" ∈ ([⟨"A", 5⟩, ⟨"B", 0⟩] : List StockRecord).map StockRecord.offer_id :=
  ((C6_price_ids_subset [⟨"A", "5", "9.00"⟩] ["A", "B"]
      [⟨"A", 5⟩, ⟨"B", 0⟩] ["B"] (by decide)).1
    ⟨"UNKNOWN", "RUB", "A", "0", "9"⟩ (by decide)).1

/-- C7 counterexample: with the duplicated catalog ["A","A"] and one
supplier record for "A", the matched identifier "A" is removed only once and
is still present in the final list, so the final list is NOT exactly the
identifiers that no supplier record matched. -/
theorem C7_counterexample :
    create_stocks [⟨"A", "5", "100.00"⟩] ["A", "A"]
      = some ([⟨"A", 5⟩, ⟨"A", 0⟩], ["A"])
    ∧ ¬ (∀ oid ∈ (["A"] : List String),
          ∀ w ∈ ([⟨"A", "5", "100.00"⟩] : List SupplierRecord),
            w.kod ≠ oid) :=
  ⟨by decide, by decide⟩

/-- C7 amended: for a DUPLICATE-FREE offer_ids list, after create_stocks
returns (on either marketplace) the caller's list holds exactly the
identifiers, in their original order, that no supplier record matched; with
duplicates only one occurrence per matched record is removed. -/
theorem C7_mutation_amended (feed : List SupplierRecord) (oids : List String)
    (stocks : List StockRecord) (rem : List String) (hnd : oids.Nodup)
    (h : create_stocks feed oids = some (stocks, rem)) :
    rem = oids.filter (fun oid => feed.all (fun w => w.kod != oid))
    ∧ ∀ warehouse_id date mstocks mrem,
        market_create_stocks feed oids warehouse_id date
          = some (mstocks, mrem) →
        mrem = oids.filter (fun oid => feed.all (fun w => w.kod != oid)) := by
  have h1 : rem = oids.filter (fun oid => feed.all (fun w => w.kod != oid)) := by
    rw [create_stocks] at h
    cases hl : createStocksLoop feed oids with
    | none => rw [hl] at h; exact Option.noConfusion h
    | some p =>
      obtain ⟨matched, rem2⟩ := p
      rw [hl] at h
      simp only [Option.some.injEq, Prod.mk.injEq] at h
      obtain ⟨rfl, rfl⟩ := h
      exact createStocksLoop_rem feed oids matched rem2 hnd hl
  refine ⟨h1, ?_⟩
  intro warehouse_id date mstocks mrem hm
  rw [market_create_stocks_eq, h] at hm
  simp only [Option.map_some', Option.some.injEq, Prod.mk.injEq] at hm
  exact hm.2 ▸ h1

/-- C7 amended witness: for feed [("A","5","9.00")] and catalog ["A","B"],
the final list is exactly the unmatched identifiers, ["B"]. -/
theorem C7_witness :
    (["B"] : List String) =
      ["A", "B"].filter (fun oid =>
        ([⟨"A", "5", "9.00"⟩] : List SupplierRecord).all
          (fun w => w.kod != oid)) :=
  (C7_mutation_amended [⟨"A", "5", "9.00"⟩] ["A", "B"]
      [⟨"A", 5⟩, ⟨"B", 0⟩] ["B"] (by decide) (by decide)).1

/-- C2 (documents the code bug): in seller.main's sequencing, create_prices
receives the offer_ids list ALREADY MUTATED by create_stocks, so for the
spec's end-to-end scenario the stock records are A=5, B=0, C=0 as claimed
but the produced price list is EMPTY — whereas create_prices applied to the
original identifier list produces the intended records A=100 and B=50. -/
theorem C2_main_price_loss :
    main_stock_price [⟨"A", "5", "100.00"⟩, ⟨"B", "1", "50.00"⟩]
        ["A", "B", "C"]
      = some ([⟨"A", 5⟩, ⟨"B", 0⟩, ⟨"C", 0⟩], [])
    ∧ create_prices [⟨"A", "5", "100.00"⟩, ⟨"B", "1", "50.00"⟩]
        ["A", "B", "C"]
      = [⟨"UNKNOWN", "RUB", "A", "0", "100"⟩,
         ⟨"UNKNOWN", "RUB", "B", "0", "50"⟩] :=
  ⟨by decide, by decide⟩

theorem divide_chunks_div (L n : Nat) (hn : n ≠ 0) (hL : 1 ≤ L) :
    (L + n - 1) / n = ((L - n) + n - 1) / n + 1 := by
  have hnp : 0 < n := Nat.pos_of_ne_zero hn
  rcases le_or_lt L n with hle | hlt
  · have h1 : L - n = 0 := Nat.sub_eq_zero_of_le hle
    rw [h1]
    have h2 : L + n - 1 = (L - 1) + n := by omega
    rw [h2, Nat.add_div_right _ hnp, Nat.div_eq_of_lt (by omega),
      Nat.div_eq_of_lt (by omega)]
  · have h2 : L + n - 1 = (L - 1) + n := by omega
    have h3 : L - n + n - 1 = (L - 1 - n) + n := by omega
    rw [h2, h3, Nat.add_div_right _ hnp, Nat.add_div_right _ hnp]
    have h4 : L - 1 = (L - 1 - n) + n := by omega
    have h5 : (L - 1) / n = (L - 1 - n) / n + 1 := by
      conv_lhs => rw [h4]
      rw [Nat.add_div_right _ hnp]
    rw [h5]

theorem range'_map_shift {β : Type} (step : Nat) :
    ∀ (k : Nat) (f : Nat → β) (s : Nat),
      (List.range' s k step).map f
        = (List.range' 0 k step).map (fun i => f (s + i)) := by
  intro k
  induction k with
  | zero => intro f s; simp
  | succ k ih =>
    intro f s
    rw [List.range'_succ, List.range'_succ]
    simp only [List.map_cons, Nat.zero_add]
    rw [ih f (s + step), ih (fun i => f (s + i)) step]
    simp [Nat.add_assoc]

theorem divide_nil {α : Type} (n : Nat) : divide ([] : List α) n = [] := by
  unfold divide
  by_cases hn : n = 0
  · simp [hn]
  · have h0 : (n - 1) / n = 0 := Nat.div_eq_of_lt (by omega)
    simp [hn, h0]

theorem divide_cons {α : Type} (lst : List α) (n : Nat) (hn : n ≠ 0)
    (hl : lst ≠ []) :
    divide lst n = lst.take n :: divide (lst.drop n) n := by
  have hL : 1 ≤ lst.length := List.length_pos.mpr hl
  unfold divide
  rw [if_neg hn, if_neg hn]
  rw [divide_chunks_div lst.length n hn hL, List.range'_succ]
  simp only [List.map_cons, List.drop_zero, Nat.zero_add]
  rw [range'_map_shift, List.length_drop]
  refine congrArg₂ _ rfl ?_
  apply List.map_congr_left
  intro i hi
  rw [List.drop_drop]

theorem divide_flatten {α : Type} (n : Nat) (hn : n ≠ 0) (lst : List α) :
    (divide lst n).flatten = lst := by
  have H : ∀ (L : Nat) (lst : List α), lst.length = L →
      (divide lst n).flatten = lst := by
    intro L
    induction L using Nat.strong_induction_on with
    | _ L ih =>
    intro lst hL
    cases lst with
    | nil => simp [divide_nil]
    | cons x xs =>
      rw [divide_cons (x :: xs) n hn (by simp), List.flatten_cons]
      have hlen : ((x :: xs).drop n).length < L := by
        simp only [List.length_drop, List.length_cons]
        have hn1 : 1 ≤ n := Nat.one_le_iff_ne_zero.mpr hn
        simp only [List.length_cons] at hL
        omega
      rw [ih ((x :: xs).drop n).length hlen ((x :: xs).drop n) rfl]
      exact List.take_append_drop n (x :: xs)
  exact H lst.length lst rfl

theorem divide_mem_length_le {α : Type} (lst : List α) (n : Nat) :
    ∀ c ∈ divide lst n, c.length ≤ n := by
  intro c hc
  unfold divide at hc
  by_cases hn : n = 0
  · rw [if_pos hn] at hc
    simp at hc
  · rw [if_neg hn] at hc
    obtain ⟨i, hi, rfl⟩ := List.mem_map.mp hc
    rw [List.length_take]
    exact min_le_left _ _

theorem divide_dropLast {α : Type} (n : Nat) (hn : n ≠ 0) (lst : List α) :
    ∀ c ∈ (divide lst n).dropLast, c.length = n := by
  have H : ∀ (L : Nat) (lst : List α), lst.length = L →
      ∀ c ∈ (divide lst n).dropLast, c.length = n := by
    intro L
    induction L using Nat.strong_induction_on with
    | _ L ih =>
    intro lst hL
    cases lst with
    | nil => simp [divide_nil]
    | cons x xs =>
      rw [divide_cons (x :: xs) n hn (by simp)]
      intro c hc
      by_cases hd : divide ((x :: xs).drop n) n = []
      · rw [hd] at hc
        simp at hc
      · rw [List.dropLast_cons_of_ne_nil hd] at hc
        rcases List.mem_cons.mp hc with rfl | h2
        · rw [List.length_take]
          have hne : (x :: xs).drop n ≠ [] := by
            intro he
            exact hd (by rw [he, divide_nil])
          have hlt : n < (x :: xs).length := by
            by_contra hge
            push_neg at hge
            exact hne (List.drop_eq_nil_of_le hge)
          exact min_eq_left hlt.le
        · have hlen : ((x :: xs).drop n).length < L := by
            simp only [List.length_drop, List.length_cons]
            have hn1 : 1 ≤ n := Nat.one_le_iff_ne_zero.mpr hn
            simp only [List.length_cons] at hL
            omega
          exact ih ((x :: xs).drop n).length hlen ((x :: xs).drop n) rfl c h2
  exact H lst.length lst rfl

/-- C5: for every chunk size n at least 1, divide yields consecutive chunks
whose concatenation is the original list, each of length at most n, with
every chunk except possibly the last of length exactly n; on [1,2,3,4,5]
with n = 2 it yields [[1,2],[3,4],[5]], and on the empty list no chunks. -/
theorem C5_divide_chunks (α : Type) (lst : List α) (n : Nat) (hn : 1 ≤ n) :
    (divide lst n).flatten = lst
    ∧ (∀ c ∈ divide lst n, c.length ≤ n)
    ∧ (∀ c ∈ (divide lst n).dropLast, c.length = n)
    ∧ divide [1, 2, 3, 4, 5] 2 = [[1, 2], [3, 4], [5]]
    ∧ divide ([] : List Nat) n = [] :=
  ⟨divide_flatten n (by omega) lst, divide_mem_length_le lst n,
   divide_dropLast n (by omega) lst, by decide, divide_nil n⟩

/-- C5 witness: chunking [1,2,3] with n = 2 and flattening restores it. -/
theorem C5_witness : (divide [1, 2, 3] 2).flatten = [1, 2, 3] :=
  (C5_divide_chunks Nat [1, 2, 3] 2 (by decide)).1

theorem runCallsFrom_abort (send : Nat → Except PyExc Unit) (e : PyExc) :
    ∀ (i cnt s : Nat), i < cnt →
      (∀ j, j < i → send (s + j) = Except.ok ()) →
      send (s + i) = Except.error e →
      runCallsFrom send s cnt = (List.range' s (i + 1), some e) := by
  intro i
  induction i with
  | zero =>
    intro cnt s hcnt hok herr
    cases cnt with
    | zero => omega
    | succ cnt =>
      simp only [Nat.add_zero] at herr
      simp [runCallsFrom, herr, List.range'_one]
  | succ i ih =>
    intro cnt s hcnt hok herr
    cases cnt with
    | zero => omega
    | succ cnt =>
      have h0 : send s = Except.ok () := by
        have := hok 0 (Nat.succ_pos i)
        simpa using this
      have hok2 : ∀ j, j < i → send (s + 1 + j) = Except.ok () := by
        intro j hj
        have hsj : s + (j + 1) = s + 1 + j := by omega
        have := hok (j + 1) (by omega)
        rwa [hsj] at this
      have herr2 : send (s + 1 + i) = Except.error e := by
        have hsi : s + (i + 1) = s + 1 + i := by omega
        rwa [hsi] at herr
      simp only [runCallsFrom, h0]
      rw [ih cnt (s + 1) (by omega) hok2 herr2]
      simp [List.range'_succ]

/-- C8: a failing chunk call stops the upload loop at once (exactly the
chunks up to the failure are attempted, later chunks never); in seller.main
the exception travels to the top-level handler, which prints the message of
its class, never retries, and skips the whole price stage. -/
theorem C8_failure_handling :
    (∀ (send : Nat → Except PyExc Unit) (cnt i : Nat) (e : PyExc),
        i < cnt → (∀ j, j < i → send j = Except.ok ()) →
        send i = Except.error e →
        runCallsFrom send 0 cnt = (List.range (i + 1), some e))
    ∧ (∀ (oids : List String) (feed : List SupplierRecord)
         (stocks : List StockRecord) (rem : List String)
         (sendStock sendPrice : Nat → Except PyExc Unit) (i : Nat) (e : PyExc),
        create_stocks feed oids = some (stocks, rem) →
        i < (divide stocks 100).length →
        (∀ j, j < i → sendStock j = Except.ok ()) →
        sendStock i = Except.error e →
        sellerMain (Except.ok oids) (Except.ok feed) sendStock sendPrice
          = ⟨[Ev.getIds, Ev.getFeed]
              ++ (List.range (i + 1)).map Ev.stockChunk,
             some (exceptMessage e)⟩)
    ∧ exceptMessage PyExc.readTimeout = "Превышено время ожидания..."
    ∧ (∀ m, exceptMessage (PyExc.connectionError m) = m ++ " Ошибка соединения")
    ∧ (∀ m, exceptMessage (PyExc.otherError m) = m ++ " ERROR_2") := by
  have habort : ∀ (send : Nat → Except PyExc Unit) (cnt i : Nat) (e : PyExc),
      i < cnt → (∀ j, j < i → send j = Except.ok ()) →
      send i = Except.error e →
      runCallsFrom send 0 cnt = (List.range (i + 1), some e) := by
    intro send cnt i e hcnt hok herr
    have := runCallsFrom_abort send e i cnt 0 hcnt
      (fun j hj => by simpa using hok j hj) (by simpa using herr)
    rwa [← List.range_eq_range'] at this
  refine ⟨habort, ?_, rfl, fun m => rfl, fun m => rfl⟩
  intro oids feed stocks rem sendStock sendPrice i e hcs hi hok herr
  simp only [sellerMain, sellerMainRun, hcs]
  rw [habort sendStock (divide stocks 100).length i e hi hok herr]
  rfl

/-- C8 witness: with catalog ["A"], an empty feed and the first stock-chunk
call timing out, exactly that chunk is attempted and the timeout message is
printed. -/
theorem C8_witness :
    sellerMain (Except.ok ["A"]) (Except.ok ([] : List SupplierRecord))
        (fun j => if j = 0 then Except.error PyExc.readTimeout
          else Except.ok ())
        (fun _ => Except.ok ())
      = ⟨[Ev.getIds, Ev.getFeed] ++ (List.range 1).map Ev.stockChunk,
         some (exceptMessage PyExc.readTimeout)⟩ :=
  C8_failure_handling.2.1 ["A"] [] [⟨"A", 0⟩] ["A"] _ _ 0 PyExc.readTimeout
    (by decide) (by decide) (fun j hj => absurd hj (by omega)) rfl

theorem ozonAccumBelow_succ (pages : Nat → OzonPage) (k : Nat) :
    ozonAccumBelow pages (k + 1)
      = ozonAccumBelow pages k ++ (pages k).items := by
  simp [ozonAccumBelow, List.range_succ]

theorem ozonLoop_reach (pages : Nat → OzonPage) :
    ∀ (fuel k m : Nat), k ≤ m →
      (∀ j, k ≤ j → j < m → ¬ ozonStops pages j) →
      ozonStops pages m → m - k < fuel →
      ozonLoop pages fuel k (ozonAccumBelow pages k)
        = some (ozonAccum pages m) := by
  intro fuel
  induction fuel with
  | zero => intro k m h1 h2 h3 h4; omega
  | succ fuel ih =>
    intro k m hkm hns hstop hfuel
    simp only [ozonLoop]
    rw [← ozonAccumBelow_succ pages k]
    by_cases hk : k = m
    · subst hk
      rw [if_pos (show (pages k).total = (ozonAccumBelow pages (k + 1)).length
        from hstop)]
      rfl
    · have hlt : k < m := by omega
      rw [if_neg (show ¬ (pages k).total = (ozonAccumBelow pages (k + 1)).length
        from hns k (le_refl k) hlt)]
      exact ih (k + 1) m (by omega) (fun j hj1 hj2 => hns j (by omega) hj2)
        hstop (by omega)

theorem ozonLoop_none (pages : Nat → OzonPage)
    (h : ∀ j, ¬ ozonStops pages j) :
    ∀ fuel k, ozonLoop pages fuel k (ozonAccumBelow pages k) = none := by
  intro fuel
  induction fuel with
  | zero => intro k; rfl
  | succ fuel ih =>
    intro k
    simp only [ozonLoop]
    rw [← ozonAccumBelow_succ pages k,
      if_neg (show ¬ (pages k).total = (ozonAccumBelow pages (k + 1)).length
        from h k)]
    exact ih (k + 1)

theorem yandexAccumBelow_succ (pages : Nat → YandexPage) (k : Nat) :
    yandexAccumBelow pages (k + 1)
      = yandexAccumBelow pages k ++ (pages k).offerMappingEntries := by
  simp [yandexAccumBelow, List.range_succ]

theorem yandexLoop_reach (pages : Nat → YandexPage) :
    ∀ (fuel k m : Nat), k ≤ m →
      (∀ j, k ≤ j → j < m → ¬ yandexStops pages j) →
      yandexStops pages m → m - k < fuel →
      yandexLoop pages fuel k (yandexAccumBelow pages k)
        = some (yandexAccum pages m) := by
  intro fuel
  induction fuel with
  | zero => intro k m h1 h2 h3 h4; omega
  | succ fuel ih =>
    intro k m hkm hns hstop hfuel
    simp only [yandexLoop]
    rw [← yandexAccumBelow_succ pages k]
    by_cases hk : k = m
    · subst hk
      rw [if_pos (show (pages k).paging.nextPageToken = "" from hstop)]
      rfl
    · have hlt : k < m := by omega
      rw [if_neg (show ¬ (pages k).paging.nextPageToken = ""
        from hns k (le_refl k) hlt)]
      exact ih (k + 1) m (by omega) (fun j hj1 hj2 => hns j (by omega) hj2)
        hstop (by omega)

theorem yandexLoop_none (pages : Nat → YandexPage)
    (h : ∀ j, ¬ yandexStops pages j) :
    ∀ fuel k, yandexLoop pages fuel k (yandexAccumBelow pages k) = none := by
  intro fuel
  induction fuel with
  | zero => intro k; rfl
  | succ fuel ih =>
    intro k
    simp only [yandexLoop]
    rw [← yandexAccumBelow_succ pages k,
      if_neg (show ¬ (pages k).paging.nextPageToken = "" from h k)]
    exact ih (k + 1)

/-- C9: each catalog reader accumulates the offer identifiers of all pages,
in page order, into one list; the Ozon loop returns exactly when the
reported total first equals the number of accumulated items, the Yandex
loop exactly when the next-page token is first empty, and if the respective
condition never holds the loop never returns (none for every fuel). -/
theorem C9_pagination :
    (∀ (pages : Nat → OzonPage) (m fuel : Nat),
        ozonStops pages m → (∀ j, j < m → ¬ ozonStops pages j) → m < fuel →
        ozon_get_offer_ids pages fuel
          = some ((ozonAccum pages m).map OzonItem.offer_id))
    ∧ (∀ pages : Nat → OzonPage, (∀ j, ¬ ozonStops pages j) →
        ∀ fuel, ozon_get_offer_ids pages fuel = none)
    ∧ (∀ (pages : Nat → YandexPage) (m fuel : Nat),
        yandexStops pages m → (∀ j, j < m → ¬ yandexStops pages j) →
        m < fuel →
        market_get_offer_ids pages fuel
          = some ((yandexAccum pages m).map (fun e => e.offer.shopSku)))
    ∧ (∀ pages : Nat → YandexPage, (∀ j, ¬ yandexStops pages j) →
        ∀ fuel, market_get_offer_ids pages fuel = none) := by
  have h0 : ∀ pages : Nat → OzonPage, ozonAccumBelow pages 0 = [] := by
    intro pages; simp [ozonAccumBelow]
  have h1 : ∀ pages : Nat → YandexPage, yandexAccumBelow pages 0 = [] := by
    intro pages; simp [yandexAccumBelow]
  refine ⟨?_, ?_, ?_, ?_⟩
  · intro pages m fuel hstop hfirst hfuel
    have hr := ozonLoop_reach pages fuel 0 m (Nat.zero_le m)
      (fun j _ hj => hfirst j hj) hstop (by omega)
    rw [h0 pages] at hr
    rw [ozon_get_offer_ids, hr]
    rfl
  · intro pages hns fuel
    have hr := ozonLoop_none pages hns fuel 0
    rw [h0 pages] at hr
    rw [ozon_get_offer_ids, hr]
    rfl
  · intro pages m fuel hstop hfirst hfuel
    have hr := yandexLoop_reach pages fuel 0 m (Nat.zero_le m)
      (fun j _ hj => hfirst j hj) hstop (by omega)
    rw [h1 pages] at hr
    rw [market_get_offer_ids, hr]
    rfl
  · intro pages hns fuel
    have hr := yandexLoop_none pages hns fuel 0
    rw [h1 pages] at hr
    rw [market_get_offer_ids, hr]
    rfl

/-- C9 witness: a single Ozon page with one item and total 1 terminates the
loop at once with that item's identifier. -/
theorem C9_witness :
    ozon_get_offer_ids (fun _ => ⟨[⟨"x"⟩], 1, ""⟩) 1 = some ["x"] :=
  C9_pagination.1 (fun _ => ⟨[⟨"x"⟩], 1, ""⟩) 0 1 (by rfl)
    (fun j hj => absurd hj (by omega)) (by decide)

/-- C10: for a matched supplier record whose price string has no digit
before the first period, the Yandex pipeline raises (int("") fails, so
market.create_prices yields none) while the Ozon pipeline emits a record
whose price field is the empty string — the two diverge. -/
theorem C10_price_parse_divergence (w : SupplierRecord) (oids : List String)
    (hmem : w.kod ∈ oids)
    (hnd : (w.tsena.toList.takeWhile (fun c => c != '.')).all
        (fun c => !c.isDigit)) :
    market_create_prices [w] oids = none
    ∧ create_prices [w] oids =
        [{ auto_action_enabled := "UNKNOWN", currency_code := "RUB",
           offer_id := w.kod, old_price := "0", price := "" }] := by
  have hpc : price_conversion w.tsena = "" := by
    rw [price_conversion, splitDotChars_headD]
    have hf : (w.tsena.toList.takeWhile (fun c => c != '.')).filter
        Char.isDigit = [] := by
      rw [List.filter_eq_nil_iff]
      intro a ha
      have := List.all_eq_true.mp hnd a ha
      simpa using this
    rw [hf]
  constructor
  · have hint : pyInt "" = none := by decide
    simp [market_create_prices, hmem, hpc, hint]
  · simp [create_prices, hmem, hpc]

/-- C10 witness: the price string "br.50" (no digit before the period)
makes market.create_prices fail for a matched record. -/
theorem C10_witness :
    market_create_prices [⟨"A", "5", "br.50"⟩] ["A"] = none :=
  (C10_price_parse_divergence ⟨"A", "5", "br.50"⟩ ["A"]
    (by decide) (by decide)).1

end SellerApis
